import Mathlib

/-!
Shallow embedding of the Plan Store (src/src/database.ts).

Plans and steps are modelled as lists of records, in rowid (insertion)
order, mirroring the two SQLite tables.  Each store operation is a pure
function from a database state to a result paired with the next state;
the `try { ... } catch { rollback }` discipline of the TypeScript code is
modelled by returning the ORIGINAL state alongside the error on every
error path that the code guards with a transaction (createPlan, which the
code does not wrap in a transaction, keeps its partial state on its
read-back error path, exactly like the source).

SQLite specifics reflected in the model:
  * `db.get` returns the first matching row in rowid order (`List.find?`).
  * `ORDER BY step_order ASC LIMIT 1` returns a row of minimal
    `step_order`; among equal orders the first by rowid (`firstByMinOrder`).
  * the schema declares `FOREIGN KEY(plan_id) REFERENCES plans(id)` but
    the code never issues `PRAGMA foreign_keys = ON`, and sqlite3 leaves
    foreign-key enforcement OFF by default, so inserts never check the
    foreign key — `insertStep` only enforces the primary key.
  * `stepId || null` in `setActiveStep` maps the empty string to NULL
    (JavaScript truthiness), modelled by `jsOrNull`.
Randomly generated ids (`generateReadableId`) and server-assigned
timestamps are passed in as explicit parameters.
-/

namespace Planner

inductive Status where
  | in_progress
  | completed
  | failed
deriving DecidableEq, Repr

structure Plan where
  id : String
  name : String
  description : String
  created_at : String
  active_step_id : Option String
deriving DecidableEq, Repr

structure Step where
  id : String
  plan_id : String
  description : String
  completion_condition : String
  status : Status
  step_order : Int
  completion_context : Option String
  created_at : String
deriving DecidableEq, Repr

structure DB where
  plans : List Plan
  steps : List Step
deriving DecidableEq, Repr

/-- Error kinds raised by the store (§7 of the spec): the three
precondition failures of `failStep`, the primary-key constraint
(`SQLITE_CONSTRAINT`), the missing-row error of `getPlanForStep`, and the
defensive read-back failure. -/
inductive DbError where
  | duplicateId
  | stepNotFound
  | notActiveStep
  | notInProgress
  | invalidPlanForStep
  | retrieveFailed
deriving DecidableEq, Repr

/-- Which errors the spec classifies as `PreconditionError` (the three
checks at the head of `failStep`). -/
def DbError.isPrecondition : DbError → Bool
  | .stepNotFound => true
  | .notActiveStep => true
  | .notInProgress => true
  | _ => false

inductive OpOutcome (α : Type) where
  | ok (val : α)
  | error (e : DbError)
deriving DecidableEq, Repr

/-- Result of one store operation: the committed (or rolled-back)
database state together with the resolved value or the rethrown error. -/
structure OpResult (α : Type) where
  db : DB
  res : OpOutcome α
deriving DecidableEq, Repr

/-- `SELECT * FROM plans WHERE id = ?` via `db.get`: first row in rowid
order. -/
def findPlan (db : DB) (planId : String) : Option Plan :=
  db.plans.find? (fun p => decide (p.id = planId))

/-- `SELECT * FROM steps WHERE id = ?` via `db.get`. -/
def findStep (db : DB) (stepId : String) : Option Step :=
  db.steps.find? (fun s => decide (s.id = stepId))

/-- `SELECT COALESCE(MAX(step_order), 0) FROM steps WHERE plan_id = ?`. -/
def maxOrderForPlan (steps : List Step) (planId : String) : Int :=
  match (steps.filter (fun s => decide (s.plan_id = planId))).map Step.step_order with
  | [] => 0
  | o :: os => os.foldl max o

/-- The row that `insertStep` writes: status defaults to `in_progress`,
`step_order` comes from the MAX subquery. -/
def newStepRec (db : DB) (stepId planId description completionCondition : String)
    (completionContext : Option String) (now : String) : Step :=
  { id := stepId, plan_id := planId, description := description,
    completion_condition := completionCondition, status := Status.in_progress,
    step_order := maxOrderForPlan db.steps planId + 1,
    completion_context := completionContext, created_at := now }

/-- `insertStep`: single INSERT computing
`step_order = COALESCE(MAX(step_order), 0) + 1` for the plan atomically.
Only the primary key is enforced (sqlite3 foreign keys are off by
default, see module header). -/
def insertStep (db : DB) (stepId planId description completionCondition : String)
    (completionContext : Option String) (now : String) : OpOutcome DB :=
  if db.steps.any (fun s => decide (s.id = stepId)) then
    .error .duplicateId
  else
    .ok { db with steps := db.steps ++
      [newStepRec db stepId planId description completionCondition completionContext now] }

/-- JavaScript `stepId || null`: the empty string is falsy and becomes
NULL. -/
def jsOrNull : Option String → Option String
  | some s => if s = "" then none else some s
  | none => none

/-- `UPDATE plans SET active_step_id = ? WHERE id = ?`. -/
def setActiveStep (db : DB) (planId : String) (stepId : Option String) : DB :=
  { db with plans := db.plans.map (fun p =>
      if p.id = planId then { p with active_step_id := jsOrNull stepId } else p) }

/-- `SELECT COUNT(*) FROM steps WHERE plan_id = ?`. -/
def getStepCount (db : DB) (planId : String) : Nat :=
  (db.steps.filter (fun s => decide (s.plan_id = planId))).length

/-- `createPlan`: INSERT then read back the row.  NOT wrapped in a
transaction in the source, so the (unreachable) read-back failure keeps
the inserted row. -/
def createPlan (db : DB) (planId name description now : String) : OpResult Plan :=
  if db.plans.any (fun p => decide (p.id = planId)) then
    ⟨db, .error .duplicateId⟩
  else
    let db1 : DB := { db with plans := db.plans ++
      [{ id := planId, name := name, description := description,
         created_at := now, active_step_id := none }] }
    match findPlan db1 planId with
    | none => ⟨db1, .error .retrieveFailed⟩
    | some p => ⟨db1, .ok p⟩

/-- `getPlan`: pure lookup, absent (not an error) when no row matches. -/
def getPlan (db : DB) (planId : String) : Option Plan :=
  findPlan db planId

/-- `createStep`: transaction of insertStep, getStepCount, the
first-step activation, and the read-back; every caught error rolls the
state back. -/
def createStep (db : DB) (stepId planId description completionCondition : String)
    (completionContext : Option String) (now : String) : OpResult Step :=
  match insertStep db stepId planId description completionCondition completionContext now with
  | .error e => ⟨db, .error e⟩
  | .ok db1 =>
    let db2 := if getStepCount db1 planId = 1 then setActiveStep db1 planId (some stepId) else db1
    match findStep db2 stepId with
    | none => ⟨db, .error .retrieveFailed⟩
    | some st => ⟨db2, .ok st⟩

/-- Of two rows, the one `ORDER BY step_order ASC` puts first (the
earlier by rowid on a tie). -/
def minStep (s t : Step) : Step :=
  if s.step_order ≤ t.step_order then s else t

/-- `ORDER BY step_order ASC LIMIT 1` over an already-filtered row list:
a row of minimal `step_order`, the earliest by rowid among ties. -/
def firstByMinOrder : List Step → Option Step
  | [] => none
  | s :: rest => some ((firstByMinOrder rest).elim s (minStep s))

/-- `getActiveStep`: the in-progress step of the plan with the lowest
`step_order`; the query never reads `plans`. -/
def getActiveStep (db : DB) (planId : String) : Option Step :=
  firstByMinOrder (db.steps.filter (fun s =>
    decide (s.plan_id = planId ∧ s.status = Status.in_progress)))

/-- `getPlanForStep`: `SELECT plan_id FROM steps WHERE id = ?`, rejecting
when no row matches. -/
def getPlanForStep (db : DB) (stepId : String) : Option String :=
  (findStep db stepId).map Step.plan_id

/-- `getNextStep`: the in-progress step of the plan with the smallest
`step_order` strictly greater than the current step's order; the
subquery on the current step yields no rows when it is absent. -/
def getNextStep (db : DB) (planId currentStepId : String) : Option Step :=
  match findStep db currentStepId with
  | none => none
  | some cur =>
    firstByMinOrder (db.steps.filter (fun s =>
      decide (s.plan_id = planId ∧ s.status = Status.in_progress ∧
        cur.step_order < s.step_order)))

/-- Row effect of `UPDATE steps SET status = "completed",
completion_context = ? WHERE id = ?`. -/
def mcf (stepId completionContext : String) (s : Step) : Step :=
  if s.id = stepId then
    { s with status := Status.completed, completion_context := some completionContext }
  else s

/-- `UPDATE steps SET status = "completed", completion_context = ?
WHERE id = ?` — unconditional, no status check. -/
def markStepCompleted (db : DB) (stepId completionContext : String) : DB :=
  { db with steps := db.steps.map (mcf stepId completionContext) }

/-- `completeStep`: transaction of the unconditional completion update,
the owning-plan lookup, next-step resolution and the active-pointer
update; the lookup failure (missing step) rolls back. -/
def completeStep (db : DB) (stepId completionContext : String) : OpResult (Option Step) :=
  let db1 := markStepCompleted db stepId completionContext
  match getPlanForStep db1 stepId with
  | none => ⟨db, .error .invalidPlanForStep⟩
  | some planId =>
    let next := getNextStep db1 planId stepId
    let db2 := setActiveStep db1 planId (next.map Step.id)
    ⟨db2, .ok next⟩

/-- Row effect of `UPDATE steps SET status = "failed" WHERE id = ?`. -/
def mff (stepId : String) (s : Step) : Step :=
  if s.id = stepId then { s with status := Status.failed } else s

/-- `UPDATE steps SET status = "failed" WHERE id = ?` (the
`completion_context` is left untouched). -/
def markStepFailed (db : DB) (stepId : String) : DB :=
  { db with steps := db.steps.map (mff stepId) }

/-- Row effect of `UPDATE steps SET step_order = step_order + 1 WHERE
plan_id = ? AND step_order > ?`. -/
def shf (planId : String) (ord : Int) (s : Step) : Step :=
  if s.plan_id = planId ∧ ord < s.step_order then
    { s with step_order := s.step_order + 1 }
  else s

/-- `UPDATE steps SET step_order = step_order + 1 WHERE plan_id = ? AND
step_order > ?`. -/
def shiftOrdersAfter (db : DB) (planId : String) (ord : Int) : DB :=
  { db with steps := db.steps.map (shf planId ord) }

/-- `failStep`: the guarded load (steps JOIN plans), the three
precondition checks, the failure mark, the order shift, the replacement
insert, the active-pointer update and the read-back; every caught error
rolls the state back.  The JOIN yields no row when the step's plan is
missing, which the code reports as `Step not found`. -/
def failStep (db : DB) (stepId newStepDescription newStepCompletionCondition newStepId now : String) :
    OpResult (String × Step) :=
  match findStep db stepId with
  | none => ⟨db, .error .stepNotFound⟩
  | some st =>
    match findPlan db st.plan_id with
    | none => ⟨db, .error .stepNotFound⟩
    | some pl =>
      if pl.active_step_id ≠ some stepId then ⟨db, .error .notActiveStep⟩
      else if st.status ≠ Status.in_progress then ⟨db, .error .notInProgress⟩
      else
        let db1 := markStepFailed db stepId
        let db2 := shiftOrdersAfter db1 st.plan_id st.step_order
        match insertStep db2 newStepId st.plan_id newStepDescription
            newStepCompletionCondition none now with
        | .error e => ⟨db, .error e⟩
        | .ok db3 =>
          let db4 := setActiveStep db3 st.plan_id (some newStepId)
          match findStep db4 newStepId with
          | none => ⟨db, .error .retrieveFailed⟩
          | some ns => ⟨db4, .ok (stepId, ns)⟩

/-- Well-formedness that SQLite's primary keys and the id generator give
every really occurring state: plan ids unique, step ids unique and
nonempty. -/
def WF (db : DB) : Prop :=
  (db.plans.map Plan.id).Nodup ∧ (db.steps.map Step.id).Nodup ∧
    ∀ s ∈ db.steps, s.id ≠ ""

instance (db : DB) : Decidable (WF db) := by
  unfold WF; infer_instance

/-- The precondition of `failStep` as the spec states it: the step with
the given id exists, its status is `in_progress`, and its plan's
`active_step_id` points at it. -/
def FailPre (db : DB) (stepId : String) : Prop :=
  ∃ s ∈ db.steps, s.id = stepId ∧ s.status = Status.in_progress ∧
    ∃ p ∈ db.plans, p.id = s.plan_id ∧ p.active_step_id = some stepId

instance (db : DB) (stepId : String) : Decidable (FailPre db stepId) := by
  unfold FailPre; infer_instance

def OpOutcome.isOk {α : Type} : OpOutcome α → Bool
  | .ok _ => true
  | .error _ => false

/-- The `step_order` of the replacement step a `failStep` call returned. -/
def failResultOrder (r : OpResult (String × Step)) : Option Int :=
  match r.res with
  | .ok p => some p.2.step_order
  | .error _ => none

/-! ### Concrete fixtures -/

def emptyDB : DB := ⟨[], []⟩

/-- Reachable state: fresh store, `createPlan`, then three `createStep`
calls for plan `P` (steps `a`, `b`, `c`). -/
def demo3 : DB :=
  (createStep (createStep (createStep
    (createPlan emptyDB "P" "plan" "desc" "t0").db
    "a" "P" "da" "ca" none "t1").db
    "b" "P" "db" "cb" none "t2").db
    "c" "P" "dc" "cc" none "t3").db

/-- Failing the active first step of `demo3`. -/
def demoFail : OpResult (String × Step) :=
  failStep demo3 "a" "retry" "cond" "n" "t4"

def mkStep (sid : String) (ord : Int) (st : Status) (ctx : Option String) : Step :=
  { id := sid, plan_id := "P", description := "d", completion_condition := "c",
    status := st, step_order := ord, completion_context := ctx, created_at := "t" }

/-- Plan `P` pointing at `x`; steps `x` (order 1) and `y` (order 2), both
in progress. -/
def dbTwo : DB :=
  ⟨[{ id := "P", name := "plan", description := "desc", created_at := "t0",
      active_step_id := some "x" }],
   [mkStep "x" 1 Status.in_progress none, mkStep "y" 2 Status.in_progress none]⟩

/-- Plan `P` pointing at `y`; step `x` already failed, step `y` in
progress. -/
def dbTerm : DB :=
  ⟨[{ id := "P", name := "plan", description := "desc", created_at := "t0",
      active_step_id := some "y" }],
   [mkStep "x" 1 Status.failed none, mkStep "y" 2 Status.in_progress none]⟩

/-- `[1, 2, ..., k]` as integers: the orders a gap-free plan has. -/
def ordList (k : Nat) : List Int :=
  (List.range k).map (fun i => Int.ofNat (i + 1))

/-- One request to `createStep`: the generated id, the two texts and the
server timestamp. -/
structure CreateReq where
  sid : String
  description : String
  condition : String
  now : String
deriving DecidableEq, Repr

/-- A sequence of `createStep` calls for one plan, each starting from the
state the previous call left behind. -/
def runCreateSteps (db : DB) (planId : String) : List CreateReq → DB
  | [] => db
  | r :: rest =>
    runCreateSteps (createStep db r.sid planId r.description r.condition none r.now).db
      planId rest

/-! ### Helper lemmas: lookups under unique keys -/

theorem find?_key_none_iff {α : Type} (key : α → String) (l : List α) (i : String) :
    l.find? (fun x => decide (key x = i)) = none ↔ ∀ a ∈ l, key a ≠ i := by
  rw [List.find?_eq_none]
  simp

theorem find?_key_some_iff {α : Type} (key : α → String) (l : List α)
    (hnd : (l.map key).Nodup) (i : String) (a : α) :
    l.find? (fun x => decide (key x = i)) = some a ↔ a ∈ l ∧ key a = i := by
  induction l with
  | nil => simp
  | cons x xs ih =>
    rw [List.map_cons, List.nodup_cons] at hnd
    by_cases hx : key x = i
    · rw [List.find?_cons_of_pos _ (by simp [hx])]
      constructor
      · rintro h
        cases h
        exact ⟨List.mem_cons_self _ _, hx⟩
      · rintro ⟨hm, hk⟩
        rcases List.mem_cons.mp hm with rfl | hm'
        · rfl
        · exfalso
          apply hnd.1
          rw [hx, ← hk]
          exact List.mem_map_of_mem key hm'
    · rw [List.find?_cons_of_neg _ (by simp [hx]), ih hnd.2]
      constructor
      · rintro ⟨hm, hk⟩; exact ⟨List.mem_cons_of_mem x hm, hk⟩
      · rintro ⟨hm, hk⟩
        rcases List.mem_cons.mp hm with rfl | hm'
        · exact absurd hk hx
        · exact ⟨hm', hk⟩

theorem key_inj_of_nodup {α : Type} (key : α → String) (l : List α)
    (hnd : (l.map key).Nodup) (a b : α) (ha : a ∈ l) (hb : b ∈ l)
    (hk : key a = key b) : a = b :=
  List.inj_on_of_nodup_map hnd ha hb hk

/-! ### Helper lemmas: ORDER BY step_order ASC LIMIT 1 -/

theorem firstByMinOrder_eq_none_iff (l : List Step) :
    firstByMinOrder l = none ↔ l = [] := by
  cases l with
  | nil => simp [firstByMinOrder]
  | cons s rest => simp [firstByMinOrder]

theorem minStep_eq_or (s t : Step) : minStep s t = s ∨ minStep s t = t := by
  unfold minStep
  split
  · exact Or.inl rfl
  · exact Or.inr rfl

theorem minStep_le_left (s t : Step) : (minStep s t).step_order ≤ s.step_order := by
  unfold minStep
  split
  · exact le_refl _
  · exact le_of_lt (lt_of_not_le (by assumption))

theorem minStep_le_right (s t : Step) : (minStep s t).step_order ≤ t.step_order := by
  unfold minStep
  split
  · assumption
  · exact le_refl _

theorem firstByMinOrder_mem (l : List Step) (s : Step)
    (h : firstByMinOrder l = some s) : s ∈ l := by
  induction l generalizing s with
  | nil => simp [firstByMinOrder] at h
  | cons x xs ih =>
    rw [firstByMinOrder] at h
    cases hrec : firstByMinOrder xs with
    | none =>
      rw [hrec] at h
      cases h
      exact List.mem_cons_self x xs
    | some t =>
      rw [hrec] at h
      simp only [Option.elim] at h
      cases h
      rcases minStep_eq_or x t with he | he <;> rw [he]
      · exact List.mem_cons_self x xs
      · exact List.mem_cons_of_mem x (ih t hrec)

/-! ### Helper lemmas: row-update functions -/

theorem mcf_id (sid ctx : String) (u : Step) : (mcf sid ctx u).id = u.id := by
  unfold mcf; split <;> rfl

theorem mcf_plan_id (sid ctx : String) (u : Step) : (mcf sid ctx u).plan_id = u.plan_id := by
  unfold mcf; split <;> rfl

theorem mcf_order (sid ctx : String) (u : Step) : (mcf sid ctx u).step_order = u.step_order := by
  unfold mcf; split <;> rfl

theorem mcf_other (sid ctx : String) (u : Step) (h : u.id ≠ sid) : mcf sid ctx u = u := by
  unfold mcf; rw [if_neg h]

theorem mcf_self (sid ctx : String) (u : Step) (h : u.id = sid) :
    mcf sid ctx u = { u with status := Status.completed, completion_context := some ctx } := by
  unfold mcf; rw [if_pos h]

theorem mff_id (sid : String) (u : Step) : (mff sid u).id = u.id := by
  unfold mff; split <;> rfl

theorem mff_plan_id (sid : String) (u : Step) : (mff sid u).plan_id = u.plan_id := by
  unfold mff; split <;> rfl

theorem mff_order (sid : String) (u : Step) : (mff sid u).step_order = u.step_order := by
  unfold mff; split <;> rfl

theorem mff_ctx (sid : String) (u : Step) :
    (mff sid u).completion_context = u.completion_context := by
  unfold mff; split <;> rfl

theorem mff_other (sid : String) (u : Step) (h : u.id ≠ sid) : mff sid u = u := by
  unfold mff; rw [if_neg h]

theorem shf_id (pid : String) (o : Int) (u : Step) : (shf pid o u).id = u.id := by
  unfold shf; split <;> rfl

theorem shf_plan_id (pid : String) (o : Int) (u : Step) :
    (shf pid o u).plan_id = u.plan_id := by
  unfold shf; split <;> rfl

theorem shf_status (pid : String) (o : Int) (u : Step) : (shf pid o u).status = u.status := by
  unfold shf; split <;> rfl

theorem shf_ctx (pid : String) (o : Int) (u : Step) :
    (shf pid o u).completion_context = u.completion_context := by
  unfold shf; split <;> rfl

/-! ### Helper lemmas: shapes of the single-table updates -/

theorem setActiveStep_steps (db : DB) (pid : String) (sid : Option String) :
    (setActiveStep db pid sid).steps = db.steps := rfl

theorem markStepCompleted_plans (db : DB) (sid ctx : String) :
    (markStepCompleted db sid ctx).plans = db.plans := rfl

theorem markStepFailed_plans (db : DB) (sid : String) :
    (markStepFailed db sid).plans = db.plans := rfl

theorem shiftOrdersAfter_plans (db : DB) (pid : String) (o : Int) :
    (shiftOrdersAfter db pid o).plans = db.plans := rfl

/-! ### Helper lemmas: the MAX(step_order) subquery -/

theorem maxOrderForPlan_eq_max? (steps : List Step) (pid : String) :
    maxOrderForPlan steps pid =
      ((steps.filter (fun s => decide (s.plan_id = pid))).map Step.step_order).max?.getD 0 := by
  unfold maxOrderForPlan
  cases (steps.filter (fun s => decide (s.plan_id = pid))).map Step.step_order <;> rfl

theorem ordList_succ (k : Nat) : ordList (k + 1) = ordList k ++ [Int.ofNat (k + 1)] := by
  unfold ordList
  rw [List.range_succ, List.map_append]
  rfl

theorem ordList_le (k : Nat) : ∀ x ∈ ordList k, x ≤ Int.ofNat k := by
  intro x hx
  unfold ordList at hx
  rw [List.mem_map] at hx
  obtain ⟨i, hi, rfl⟩ := hx
  rw [List.mem_range] at hi
  exact Int.ofNat_le.mpr (by omega)

theorem maxOrder_of_ordList (steps : List Step) (pid : String) (k : Nat)
    (h : (steps.filter (fun s => decide (s.plan_id = pid))).map Step.step_order = ordList k) :
    maxOrderForPlan steps pid = Int.ofNat k := by
  rw [maxOrderForPlan_eq_max?, h]
  cases k with
  | zero => rfl
  | succ m =>
    haveI : Std.Antisymm (fun x1 x2 : Int => x1 ≤ x2) :=
      ⟨fun h1 h2 => le_antisymm h1 h2⟩
    have hmx : (ordList (m + 1)).max? = some (Int.ofNat (m + 1)) := by
      rw [List.max?_eq_some_iff (fun a => le_refl a) (fun a b => max_choice a b)
        (fun a b c => max_le_iff)]
      constructor
      · rw [ordList_succ]
        exact List.mem_append_right _ (List.mem_singleton_self _)
      · exact ordList_le (m + 1)
    rw [hmx]
    rfl

/-! ### Helper lemmas: insertStep -/

theorem insertStep_ok (db : DB) (sid pid d c : String) (ctx : Option String) (now : String)
    (hfresh : ∀ s ∈ db.steps, s.id ≠ sid) :
    insertStep db sid pid d c ctx now =
      .ok { db with steps := db.steps ++ [newStepRec db sid pid d c ctx now] } := by
  unfold insertStep
  rw [if_neg]
  intro hany
  rw [List.any_eq_true] at hany
  obtain ⟨s, hs, hid⟩ := hany
  exact hfresh s hs (by simpa using hid)

theorem insertStep_dup (db : DB) (sid pid d c : String) (ctx : Option String) (now : String)
    (hdup : ∃ s ∈ db.steps, s.id = sid) :
    insertStep db sid pid d c ctx now = .error .duplicateId := by
  unfold insertStep
  rw [if_pos]
  rw [List.any_eq_true]
  obtain ⟨s, hs, hid⟩ := hdup
  exact ⟨s, hs, by simpa using hid⟩

theorem firstByMinOrder_le (l : List Step) (s : Step)
    (h : firstByMinOrder l = some s) :
    ∀ t ∈ l, s.step_order ≤ t.step_order := by
  induction l generalizing s with
  | nil => simp [firstByMinOrder] at h
  | cons x xs ih =>
    rw [firstByMinOrder] at h
    intro t ht
    cases hrec : firstByMinOrder xs with
    | none =>
      rw [hrec] at h
      cases h
      rw [firstByMinOrder_eq_none_iff] at hrec
      subst hrec
      rcases List.mem_cons.mp ht with rfl | ht'
      · exact le_refl _
      · simp at ht'
    | some u =>
      rw [hrec] at h
      simp only [Option.elim] at h
      cases h
      rcases List.mem_cons.mp ht with rfl | ht'
      · exact minStep_le_left t u
      · exact le_trans (minStep_le_right x u) (ih u hrec t ht')

/-! ### Helper lemmas: find? over appended rows -/

theorem find?_append_right {α : Type} (p : α → Bool) (l₁ l₂ : List α)
    (h : ∀ a ∈ l₁, ¬ p a = true) : (l₁ ++ l₂).find? p = l₂.find? p := by
  induction l₁ with
  | nil => rfl
  | cons x xs ih =>
    rw [List.cons_append, List.find?_cons_of_neg _ (h x (List.mem_cons_self _ _))]
    exact ih (fun a ha => h a (List.mem_cons_of_mem _ ha))

/-! ### Helper lemmas: createStep on a fresh id -/

theorem getStepCount_append_self (db : DB) (sid pid d c : String) (ctx : Option String)
    (now : String) :
    getStepCount { db with steps := db.steps ++ [newStepRec db sid pid d c ctx now] } pid =
      getStepCount db pid + 1 := by
  simp [getStepCount, List.filter_append, newStepRec]

theorem createStep_ok_spec (db : DB) (sid pid d c : String) (ctx : Option String)
    (now : String) (hfresh : ∀ s ∈ db.steps, s.id ≠ sid) :
    (createStep db sid pid d c ctx now).db.steps =
        db.steps ++ [newStepRec db sid pid d c ctx now] ∧
    (createStep db sid pid d c ctx now).res = .ok (newStepRec db sid pid d c ctx now) ∧
    (createStep db sid pid d c ctx now).db.plans =
      (if getStepCount db pid + 1 = 1
        then (setActiveStep db pid (some sid)).plans else db.plans) := by
  have hfind : ∀ dbx : DB, dbx.steps = db.steps ++ [newStepRec db sid pid d c ctx now] →
      findStep dbx sid = some (newStepRec db sid pid d c ctx now) := by
    intro dbx hx
    rw [findStep, hx, find?_append_right]
    · rw [List.find?_cons_of_pos]
      simp [newStepRec]
    · intro a ha
      simp only [decide_eq_true_eq]
      exact hfresh a ha
  have hcount : getStepCount { db with steps := db.steps ++ [newStepRec db sid pid d c ctx now] } pid =
      getStepCount db pid + 1 := getStepCount_append_self db sid pid d c ctx now
  unfold createStep
  rw [insertStep_ok db sid pid d c ctx now hfresh]
  dsimp only
  rw [hcount]
  by_cases hone : getStepCount db pid + 1 = 1
  · rw [if_pos hone, hfind _ (setActiveStep_steps _ _ _), if_pos hone]
    exact ⟨rfl, rfl, rfl⟩
  · rw [if_neg hone, hfind _ rfl, if_neg hone]
    exact ⟨rfl, rfl, rfl⟩

theorem find?_id_map (f : Step → Step) (hf : ∀ u, (f u).id = u.id) (l : List Step)
    (i : String) :
    (l.map f).find? (fun t => decide (t.id = i)) =
      (l.find? (fun t => decide (t.id = i))).map f := by
  induction l with
  | nil => rfl
  | cons x xs ih =>
    rw [List.map_cons]
    by_cases hx : x.id = i
    · rw [List.find?_cons_of_pos _ (by simp [hf, hx]),
        List.find?_cons_of_pos _ (by simp [hx])]
      rfl
    · rw [List.find?_cons_of_neg _ (by simp [hf, hx]),
        List.find?_cons_of_neg _ (by simp [hx]), ih]

theorem findStep_self (db : DB) (s : Step) (hnds : (db.steps.map Step.id).Nodup)
    (hs : s ∈ db.steps) : findStep db s.id = some s :=
  (find?_key_some_iff Step.id db.steps hnds s.id s).mpr ⟨hs, rfl⟩

theorem findStep_markStepCompleted (db : DB) (sid ctx i : String) :
    findStep (markStepCompleted db sid ctx) i = (findStep db i).map (mcf sid ctx) := by
  unfold markStepCompleted findStep
  dsimp only
  exact find?_id_map (mcf sid ctx) (mcf_id sid ctx) db.steps i

theorem insertStep_error_eq (db : DB) (sid pid d c : String) (ctx : Option String)
    (now : String) (e : DbError) (h : insertStep db sid pid d c ctx now = .error e) :
    e = .duplicateId := by
  unfold insertStep at h
  split at h
  · cases h; rfl
  · cases h

theorem createStep_ok_fresh (db : DB) (sid pid d c : String) (ctx : Option String)
    (now : String) (st : Step) (hok : (createStep db sid pid d c ctx now).res = .ok st) :
    ∀ s ∈ db.steps, s.id ≠ sid := by
  intro s hs hss
  have hdup := insertStep_dup db sid pid d c ctx now ⟨s, hs, hss⟩
  unfold createStep at hok
  rw [hdup] at hok
  dsimp only at hok
  cases hok

/-! ### Helper lemmas: rollback discipline -/

theorem createPlan_rollback (db : DB) (pid n d now : String) :
    (createPlan db pid n d now).db = db ∨ (createPlan db pid n d now).res.isOk = true := by
  unfold createPlan
  split
  · left; rfl
  · dsimp only
    split
    · exfalso
      rename_i heq
      simp only [findPlan, find?_key_none_iff] at heq
      exact heq _ (List.mem_append_right _ (List.mem_singleton_self _)) rfl
    · right; rfl

theorem createStep_rollback (db : DB) (sid pid d c : String) (ctx : Option String)
    (now : String) :
    (createStep db sid pid d c ctx now).db = db ∨
      (createStep db sid pid d c ctx now).res.isOk = true := by
  unfold createStep
  split
  · left; rfl
  · dsimp only
    repeat' split
    all_goals first | (left; rfl) | (right; rfl)

theorem completeStep_rollback (db : DB) (sid ctx : String) :
    (completeStep db sid ctx).db = db ∨ (completeStep db sid ctx).res.isOk = true := by
  unfold completeStep
  dsimp only
  split
  · left; rfl
  · right; rfl

theorem failStep_rollback (db : DB) (sid d c nid now : String) :
    (failStep db sid d c nid now).db = db ∨
      (failStep db sid d c nid now).res.isOk = true := by
  unfold failStep
  split
  · left; rfl
  · split
    · left; rfl
    · split
      · left; rfl
      · split
        · left; rfl
        · dsimp only
          repeat' split
          all_goals first | (left; rfl) | (right; rfl)

/-! ### Helper lemmas: step-table shapes of the operations -/

theorem createPlan_steps (db : DB) (pid n d now : String) :
    (createPlan db pid n d now).db.steps = db.steps := by
  unfold createPlan
  split
  · rfl
  · dsimp only
    split <;> rfl

theorem completeStep_steps_cases (db : DB) (sid ctx : String) :
    (completeStep db sid ctx).db = db ∨
    (completeStep db sid ctx).db.steps = db.steps.map (mcf sid ctx) := by
  unfold completeStep
  dsimp only
  split
  · left; rfl
  · right; rfl

theorem failStep_steps_shape (db : DB) (sid d c nid now : String) :
    (failStep db sid d c nid now).db = db ∨
    (∃ st, findStep db sid = some st ∧ st.status = Status.in_progress ∧
      (failStep db sid d c nid now).db.steps =
        ((db.steps.map (mff sid)).map (shf st.plan_id st.step_order)) ++
          [newStepRec (shiftOrdersAfter (markStepFailed db sid) st.plan_id st.step_order)
            nid st.plan_id d c none now] ∧
      (∀ u ∈ (db.steps.map (mff sid)).map (shf st.plan_id st.step_order), u.id ≠ nid)) := by
  unfold failStep
  split
  · left; rfl
  · rename_i st hfind
    split
    · left; rfl
    · split
      · left; rfl
      · split
        · left; rfl
        · rename_i hact hstat
          dsimp only
          cases hins : insertStep (shiftOrdersAfter (markStepFailed db sid) st.plan_id
              st.step_order) nid st.plan_id d c none now with
          | error e =>
            simp only [hins]
            exact Or.inl trivial
          | ok db3 =>
            simp only [hins]
            have hins' := hins
            unfold insertStep at hins'
            split at hins'
            · cases hins'
            · rename_i hany
              cases hins'
              split
              · left; rfl
              · right
                refine ⟨st, hfind, not_not.mp hstat, rfl, ?_⟩
                intro u hu huid
                apply hany
                rw [List.any_eq_true]
                exact ⟨u, hu, by simp [huid]⟩

/-! ### Helper lemmas: sequences of createStep calls -/

theorem runCreateSteps_orders (planId : String) (reqs : List CreateReq) :
    ∀ (db : DB) (k : Nat),
      (db.steps.filter (fun s => decide (s.plan_id = planId))).map Step.step_order = ordList k →
      (∀ r ∈ reqs, ∀ s ∈ db.steps, s.id ≠ r.sid) →
      (reqs.map CreateReq.sid).Nodup →
      ((runCreateSteps db planId reqs).steps.filter
          (fun s => decide (s.plan_id = planId))).map Step.step_order =
        ordList (k + reqs.length) := by
  induction reqs with
  | nil =>
    intro db k h _ _
    simpa [runCreateSteps] using h
  | cons r rest ih =>
    intro db k hpref hfresh hnodup
    rw [List.map_cons, List.nodup_cons] at hnodup
    have hfresh1 : ∀ s ∈ db.steps, s.id ≠ r.sid :=
      hfresh r (List.mem_cons_self _ _)
    obtain ⟨hsteps, hres, _⟩ :=
      createStep_ok_spec db r.sid planId r.description r.condition none r.now hfresh1
    have hmax : maxOrderForPlan db.steps planId = Int.ofNat k :=
      maxOrder_of_ordList db.steps planId k hpref
    rw [runCreateSteps]
    have hfilter : ((createStep db r.sid planId r.description r.condition none r.now).db.steps.filter
        (fun s => decide (s.plan_id = planId))).map Step.step_order = ordList (k + 1) := by
      rw [hsteps, List.filter_append, List.map_append, hpref]
      have hsingle : (List.filter (fun s => decide (s.plan_id = planId))
          [newStepRec db r.sid planId r.description r.condition none r.now]).map Step.step_order =
          [Int.ofNat (k + 1)] := by
        simp [newStepRec, hmax]
      rw [hsingle, ordList_succ]
    have hfresh' : ∀ q ∈ rest,
        ∀ s ∈ (createStep db r.sid planId r.description r.condition none r.now).db.steps,
          s.id ≠ q.sid := by
      intro q hq s hs
      rw [hsteps] at hs
      rcases List.mem_append.mp hs with hs | hs
      · exact hfresh q (List.mem_cons_of_mem _ hq) s hs
      · rcases List.mem_singleton.mp hs with rfl
        show r.sid ≠ q.sid
        intro hqq
        exact hnodup.1 (hqq ▸ List.mem_map_of_mem CreateReq.sid hq)
    have hlen : k + (r :: rest).length = (k + 1) + rest.length := by
      rw [List.length_cons]
      omega
    rw [hlen]
    exact ih _ (k + 1) hfilter hfresh' hnodup.2

/-! ### Claim theorems -/

/-- Claim C1 (refuted, code bug): on the reachable state `demo3` (fresh
store, one plan, three steps with orders 1, 2, 3, active step `a`),
`failStep` on `a` keeps the failed step at order 1, shifts the two later
steps to 3 and 4, and points the plan at the replacement — but it inserts
the replacement at `MAX(step_order) + 1 = 5`, not at the failed step's
original order + 1 = 2, because `insertStep` recomputes the order from
the MAX subquery after the shift.  The comment in the source ("Create the
new step with order = failed_step_order + 1") and the spec both promise
order 2. -/
theorem failStep_replacement_misses_gap :
    (findStep demo3 "a").map Step.step_order = some 1 ∧
    demoFail.res.isOk = true ∧
    failResultOrder demoFail = some 5 ∧
    demoFail.db.steps.map Step.step_order = [1, 3, 4, 5] ∧
    (findPlan demoFail.db "P").map Plan.active_step_id = some (some "n") ∧
    failResultOrder demoFail ≠ some (1 + 1) := by
  decide

/-- Claim C3 (confirmed): for every store operation (createPlan,
createStep, completeStep, failStep) and every starting state, if the
operation ends in an error then the state after the operation is the
starting state — the rollback lets no partial mutation survive. -/
theorem store_error_leaves_state_unchanged (db : DB) :
    (∀ pid n d now e, (createPlan db pid n d now).res = .error e →
        (createPlan db pid n d now).db = db) ∧
    (∀ sid pid d c ctx now e, (createStep db sid pid d c ctx now).res = .error e →
        (createStep db sid pid d c ctx now).db = db) ∧
    (∀ sid ctx e, (completeStep db sid ctx).res = .error e →
        (completeStep db sid ctx).db = db) ∧
    (∀ sid d c nid now e, (failStep db sid d c nid now).res = .error e →
        (failStep db sid d c nid now).db = db) := by
  refine ⟨?_, ?_, ?_, ?_⟩
  · intro pid n d now e h
    rcases createPlan_rollback db pid n d now with hdb | hok
    · exact hdb
    · rw [h] at hok; simp [OpOutcome.isOk] at hok
  · intro sid pid d c ctx now e h
    rcases createStep_rollback db sid pid d c ctx now with hdb | hok
    · exact hdb
    · rw [h] at hok; simp [OpOutcome.isOk] at hok
  · intro sid ctx e h
    rcases completeStep_rollback db sid ctx with hdb | hok
    · exact hdb
    · rw [h] at hok; simp [OpOutcome.isOk] at hok
  · intro sid d c nid now e h
    rcases failStep_rollback db sid d c nid now with hdb | hok
    · exact hdb
    · rw [h] at hok; simp [OpOutcome.isOk] at hok

/-- Witness for C3: completing a nonexistent step on the empty store
errors and leaves the store unchanged. -/
theorem store_error_leaves_state_unchanged_witness :
    (completeStep emptyDB "s" "c").res = .error .invalidPlanForStep ∧
      (completeStep emptyDB "s" "c").db = emptyDB :=
  ⟨by decide,
   (store_error_leaves_state_unchanged emptyDB).2.2.1 "s" "c" .invalidPlanForStep (by decide)⟩

/-- Claim C10 (confirmed): for a `stepId` matching no step,
`completeStep` raises an error (the owning-plan lookup fails after the
zero-row status update) and the rolled-back state equals the starting
state, whereas `getPlan` returns absent (not an error) for a missing
plan. -/
theorem completeStep_missing_step_errors (db : DB) (sid ctx : String)
    (hmiss : ∀ s ∈ db.steps, s.id ≠ sid) :
    (completeStep db sid ctx).res = .error .invalidPlanForStep ∧
    (completeStep db sid ctx).db = db ∧
    ∀ pid, (∀ p ∈ db.plans, p.id ≠ pid) → getPlan db pid = none := by
  have hids : ∀ t ∈ (markStepCompleted db sid ctx).steps, t.id ≠ sid := by
    intro t ht
    simp only [markStepCompleted, List.mem_map] at ht
    obtain ⟨u, hu, rfl⟩ := ht
    rw [mcf_id]
    exact hmiss u hu
  have hfs : findStep (markStepCompleted db sid ctx) sid = none := by
    rw [findStep, find?_key_none_iff]
    exact hids
  have hgp : getPlanForStep (markStepCompleted db sid ctx) sid = none := by
    rw [getPlanForStep, hfs]
    rfl
  unfold completeStep
  dsimp only
  rw [hgp]
  refine ⟨rfl, rfl, ?_⟩
  intro pid hp
  rw [getPlan, findPlan, find?_key_none_iff]
  exact hp

/-- Witness for C10: completing the nonexistent step `zzz` on `dbTwo`. -/
theorem completeStep_missing_step_errors_witness :
    (∀ s ∈ dbTwo.steps, s.id ≠ "zzz") ∧
    ((completeStep dbTwo "zzz" "ctx").res = .error .invalidPlanForStep ∧
     (completeStep dbTwo "zzz" "ctx").db = dbTwo ∧
     ∀ pid, (∀ p ∈ dbTwo.plans, p.id ≠ pid) → getPlan dbTwo pid = none) :=
  ⟨by decide, completeStep_missing_step_errors dbTwo "zzz" "ctx" (by decide)⟩

/-- Claim C7 (confirmed): on a well-formed state, `completeStep` on an
existing step `s` always succeeds; it sets `s`'s status to `completed`
and its `completion_context` to the supplied context; it returns the
in-progress step of `s`'s plan with the smallest `step_order` strictly
greater than `s`'s (or absent if none exists); and it sets the owning
plan's `active_step_id` to that step's id (or null), every other plan
field and row unchanged — in particular the pointer is only ever set to
a step whose status is `in_progress`. -/
theorem completeStep_spec (db : DB) (ctx : String) (s : Step)
    (hwf : WF db) (hs : s ∈ db.steps) :
    (∃ nxo, (completeStep db s.id ctx).res = .ok nxo) ∧
    (∀ t ∈ (completeStep db s.id ctx).db.steps, t.id = s.id →
        t.status = Status.completed ∧ t.completion_context = some ctx) ∧
    (∀ nx, (completeStep db s.id ctx).res = .ok (some nx) →
        nx ∈ db.steps ∧ nx.plan_id = s.plan_id ∧ nx.status = Status.in_progress ∧
        s.step_order < nx.step_order ∧
        (∀ t ∈ db.steps, t.plan_id = s.plan_id → t.status = Status.in_progress →
            s.step_order < t.step_order → nx.step_order ≤ t.step_order) ∧
        (completeStep db s.id ctx).db.plans =
          db.plans.map (fun p =>
            if p.id = s.plan_id then { p with active_step_id := some nx.id } else p)) ∧
    ((completeStep db s.id ctx).res = .ok none →
        (∀ t ∈ db.steps, t.plan_id = s.plan_id → t.status = Status.in_progress →
            t.step_order ≤ s.step_order) ∧
        (completeStep db s.id ctx).db.plans =
          db.plans.map (fun p =>
            if p.id = s.plan_id then { p with active_step_id := none } else p)) := by
  obtain ⟨hndp, hnds, hne⟩ := hwf
  have hfs : findStep db s.id = some s := findStep_self db s hnds hs
  have hfs1 : findStep (markStepCompleted db s.id ctx) s.id = some (mcf s.id ctx s) := by
    rw [findStep_markStepCompleted, hfs]
    rfl
  have hgp : getPlanForStep (markStepCompleted db s.id ctx) s.id = some s.plan_id := by
    rw [getPlanForStep, hfs1, Option.map_some', mcf_plan_id]
  have hres : (completeStep db s.id ctx).res =
      .ok (getNextStep (markStepCompleted db s.id ctx) s.plan_id s.id) := by
    unfold completeStep
    dsimp only
    rw [hgp]
  have hdb : (completeStep db s.id ctx).db =
      setActiveStep (markStepCompleted db s.id ctx) s.plan_id
        ((getNextStep (markStepCompleted db s.id ctx) s.plan_id s.id).map Step.id) := by
    unfold completeStep
    dsimp only
    rw [hgp]
  have hfilter : ((markStepCompleted db s.id ctx).steps.filter (fun t =>
        decide (t.plan_id = s.plan_id ∧ t.status = Status.in_progress ∧
          s.step_order < t.step_order))) =
      db.steps.filter (fun t =>
        decide (t.plan_id = s.plan_id ∧ t.status = Status.in_progress ∧
          s.step_order < t.step_order)) := by
    unfold markStepCompleted
    dsimp only
    rw [List.filter_map]
    have hcong : db.steps.filter ((fun t => decide (t.plan_id = s.plan_id ∧
          t.status = Status.in_progress ∧ s.step_order < t.step_order)) ∘ (mcf s.id ctx)) =
        db.steps.filter (fun t => decide (t.plan_id = s.plan_id ∧
          t.status = Status.in_progress ∧ s.step_order < t.step_order)) := by
      apply List.filter_congr
      intro u hu
      by_cases hid : u.id = s.id
      · have hus : u = s := key_inj_of_nodup Step.id db.steps hnds u s hu hs hid
        subst hus
        simp [Function.comp, mcf]
      · rw [Function.comp_apply, mcf_other s.id ctx u hid]
    rw [hcong]
    have hid : ∀ u ∈ db.steps.filter (fun t => decide (t.plan_id = s.plan_id ∧
        t.status = Status.in_progress ∧ s.step_order < t.step_order)),
        mcf s.id ctx u = u := by
      intro u hu
      rw [List.mem_filter, decide_eq_true_eq] at hu
      apply mcf_other
      intro hid
      have hus : u = s := key_inj_of_nodup Step.id db.steps hnds u s hu.1 hs hid
      subst hus
      exact absurd hu.2.2.2 (lt_irrefl _)
    rw [List.map_congr_left hid, List.map_id']
  have hnext : getNextStep (markStepCompleted db s.id ctx) s.plan_id s.id =
      firstByMinOrder (db.steps.filter (fun t =>
        decide (t.plan_id = s.plan_id ∧ t.status = Status.in_progress ∧
          s.step_order < t.step_order))) := by
    unfold getNextStep
    rw [hfs1]
    dsimp only
    simp only [mcf_order]
    rw [hfilter]
  refine ⟨⟨_, hres⟩, ?_, ?_, ?_⟩
  · intro t ht htid
    rw [hdb, setActiveStep_steps] at ht
    unfold markStepCompleted at ht
    dsimp only at ht
    rw [List.mem_map] at ht
    obtain ⟨u, hu, rfl⟩ := ht
    rw [mcf_id] at htid
    rw [mcf_self s.id ctx u htid]
    exact ⟨rfl, rfl⟩
  · intro nx hnx
    rw [hres, hnext] at hnx
    injection hnx with h1
    have hmem := firstByMinOrder_mem _ _ h1
    rw [List.mem_filter, decide_eq_true_eq] at hmem
    obtain ⟨hmemdb, hcond⟩ := hmem
    refine ⟨hmemdb, hcond.1, hcond.2.1, hcond.2.2, ?_, ?_⟩
    · intro t ht h1' h2' h3'
      exact firstByMinOrder_le _ _ h1 t
        (List.mem_filter.mpr ⟨ht, by rw [decide_eq_true_eq]; exact ⟨h1', h2', h3'⟩⟩)
    · rw [hdb]
      unfold setActiveStep
      dsimp only
      rw [markStepCompleted_plans]
      simp only [hnext, h1, Option.map_some', jsOrNull, if_neg (hne nx hmemdb)]
  · intro hnone
    rw [hres, hnext] at hnone
    injection hnone with h1
    have hempty := (firstByMinOrder_eq_none_iff _).mp h1
    rw [List.filter_eq_nil_iff] at hempty
    refine ⟨?_, ?_⟩
    · intro t ht h1' h2'
      by_contra hlt
      exact hempty t ht (by rw [decide_eq_true_eq]; exact ⟨h1', h2', lt_of_not_le hlt⟩)
    · rw [hdb]
      unfold setActiveStep
      dsimp only
      rw [markStepCompleted_plans]
      simp only [hnext, h1, Option.map_none', jsOrNull]

/-- Witness for C7: completing step `x` of `dbTwo` succeeds and the
theorem's hypotheses are satisfiable. -/
theorem completeStep_spec_witness :
    WF dbTwo ∧ mkStep "x" 1 Status.in_progress none ∈ dbTwo.steps ∧
    (∃ nxo, (completeStep dbTwo (mkStep "x" 1 Status.in_progress none).id "done").res =
        .ok nxo) :=
  ⟨by decide, by decide,
   (completeStep_spec dbTwo "done" (mkStep "x" 1 Status.in_progress none)
      (by decide) (by decide)).1⟩

/-- Claim C8 (confirmed): a successful `createStep` sets the plan's
`active_step_id` to the new step's id exactly when the post-insert step
count for the plan is 1 (equivalently, the plan had no steps before);
otherwise it leaves every plan row completely unchanged, and even in the
first-step case every other plan row and every other field is
untouched. -/
theorem createStep_first_step_activation (db : DB) (sid pid d c : String)
    (ctx : Option String) (now : String) (st : Step) (hsid : sid ≠ "")
    (hok : (createStep db sid pid d c ctx now).res = .ok st) :
    (getStepCount (createStep db sid pid d c ctx now).db pid = 1 ↔
        db.steps.filter (fun s => decide (s.plan_id = pid)) = []) ∧
    (getStepCount (createStep db sid pid d c ctx now).db pid = 1 →
        (createStep db sid pid d c ctx now).db.plans =
          db.plans.map (fun p =>
            if p.id = pid then { p with active_step_id := some sid } else p)) ∧
    (getStepCount (createStep db sid pid d c ctx now).db pid ≠ 1 →
        (createStep db sid pid d c ctx now).db.plans = db.plans) := by
  have hfresh : ∀ s ∈ db.steps, s.id ≠ sid :=
    createStep_ok_fresh db sid pid d c ctx now st hok
  obtain ⟨hsteps, hres, hplans⟩ := createStep_ok_spec db sid pid d c ctx now hfresh
  have hc : getStepCount (createStep db sid pid d c ctx now).db pid =
      getStepCount db pid + 1 := by
    rw [getStepCount, hsteps, List.filter_append]
    simp [getStepCount, newStepRec]
  refine ⟨?_, ?_, ?_⟩
  · rw [hc]
    unfold getStepCount
    constructor
    · intro h1
      rw [List.length_eq_zero.symm]
      omega
    · intro h0
      rw [h0]
      rfl
  · intro h1
    rw [hc] at h1
    rw [hplans, if_pos h1]
    simp only [setActiveStep, jsOrNull, if_neg hsid]
  · intro h1
    rw [hc] at h1
    rw [hplans, if_neg h1]

/-- Witness for C8: creating a step for the two-step plan `P` does not
change any plan row (the post-insert count is 3, not 1). -/
theorem createStep_first_step_activation_witness :
    (getStepCount (createStep dbTwo "z" "P" "d" "c" none "t").db "P" = 1 ↔
        dbTwo.steps.filter (fun s => decide (s.plan_id = "P")) = []) ∧
    (createStep dbTwo "z" "P" "d" "c" none "t").db.plans = dbTwo.plans :=
  ⟨(createStep_first_step_activation dbTwo "z" "P" "d" "c" none "t"
      (newStepRec dbTwo "z" "P" "d" "c" none "t") (by decide) (by decide)).1,
   (createStep_first_step_activation dbTwo "z" "P" "d" "c" none "t"
      (newStepRec dbTwo "z" "P" "d" "c" none "t") (by decide) (by decide)).2.2 (by decide)⟩

/-- Claim C2 (confirmed): on a well-formed state, `failStep` fails with a
`PreconditionError` if and only if the step does not exist, or it is not
its plan's current active step, or its status is not `in_progress`
(equivalently: iff `FailPre` fails).  When the precondition holds, no
precondition error is raised (the only remaining failure is the
primary-key constraint on the generated replacement id, which is a
persistence error, not a precondition error). -/
theorem failStep_precondition_iff (db : DB) (sid d c nid now : String) (hwf : WF db) :
    (∃ e, (failStep db sid d c nid now).res = .error e ∧ e.isPrecondition = true) ↔
      ¬ FailPre db sid := by
  obtain ⟨hndp, hnds, -⟩ := hwf
  cases hf : findStep db sid with
  | none =>
    have hres : (failStep db sid d c nid now).res = .error .stepNotFound := by
      unfold failStep
      rw [hf]
    refine iff_of_true ⟨.stepNotFound, hres, rfl⟩ ?_
    rintro ⟨s, hs, hsid, -⟩
    rw [findStep, find?_key_none_iff] at hf
    exact hf s hs hsid
  | some st =>
    have hst := (find?_key_some_iff Step.id db.steps hnds sid st).mp hf
    cases hp : findPlan db st.plan_id with
    | none =>
      have hres : (failStep db sid d c nid now).res = .error .stepNotFound := by
        unfold failStep
        rw [hf]
        dsimp only
        rw [hp]
      refine iff_of_true ⟨.stepNotFound, hres, rfl⟩ ?_
      rintro ⟨s, hs, hsid, hstat, p, hpm, hpid, hact⟩
      have hseq : s = st :=
        key_inj_of_nodup Step.id db.steps hnds s st hs hst.1 (by rw [hsid, hst.2])
      subst hseq
      rw [findPlan, find?_key_none_iff] at hp
      exact hp p hpm hpid
    | some pl =>
      have hplm := (find?_key_some_iff Plan.id db.plans hndp st.plan_id pl).mp hp
      by_cases hact : pl.active_step_id = some sid
      · by_cases hstat : st.status = Status.in_progress
        · have hpre : FailPre db sid :=
            ⟨st, hst.1, hst.2, hstat, pl, hplm.1, hplm.2, hact⟩
          refine iff_of_false ?_ (fun h => h hpre)
          rintro ⟨e, he, hprec⟩
          unfold failStep at he
          rw [hf] at he
          dsimp only at he
          rw [hp] at he
          dsimp only at he
          rw [if_neg (not_not.mpr hact), if_neg (not_not.mpr hstat)] at he
          revert he
          cases hins : insertStep (shiftOrdersAfter (markStepFailed db sid) st.plan_id
              st.step_order) nid st.plan_id d c none now with
          | error e2 =>
            intro he
            have he2 := insertStep_error_eq _ nid st.plan_id d c none now e2 hins
            subst he2
            dsimp only at he
            cases he
            exact absurd hprec (by decide)
          | ok db3 =>
            intro he
            dsimp only at he
            revert he
            cases hf4 : findStep (setActiveStep db3 st.plan_id (some nid)) nid with
            | none =>
              intro he
              dsimp only at he
              cases he
              exact absurd hprec (by decide)
            | some ns =>
              intro he
              dsimp only at he
              cases he
        · have hres : (failStep db sid d c nid now).res = .error .notInProgress := by
            unfold failStep
            rw [hf]
            dsimp only
            rw [hp]
            dsimp only
            rw [if_neg (not_not.mpr hact), if_pos hstat]
          refine iff_of_true ⟨.notInProgress, hres, rfl⟩ ?_
          rintro ⟨s, hs, hsid, hstat2, -⟩
          have hseq : s = st :=
            key_inj_of_nodup Step.id db.steps hnds s st hs hst.1 (by rw [hsid, hst.2])
          subst hseq
          exact hstat hstat2
      · have hres : (failStep db sid d c nid now).res = .error .notActiveStep := by
          unfold failStep
          rw [hf]
          dsimp only
          rw [hp]
          dsimp only
          rw [if_pos hact]
        refine iff_of_true ⟨.notActiveStep, hres, rfl⟩ ?_
        rintro ⟨s, hs, hsid, hstat2, p, hpm, hpid, hact2⟩
        have hseq : s = st :=
          key_inj_of_nodup Step.id db.steps hnds s st hs hst.1 (by rw [hsid, hst.2])
        subst hseq
        have hpeq : p = pl :=
          key_inj_of_nodup Plan.id db.plans hndp p pl hpm hplm.1 (by rw [hpid, hplm.2])
        subst hpeq
        exact hact hact2

/-- Witness for C2: on `dbTerm` the step `x` exists but is failed and not
the active step, so `failStep` raises a precondition error; the
equivalence is witnessed concretely. -/
theorem failStep_precondition_iff_witness :
    WF dbTerm ∧
    ((∃ e, (failStep dbTerm "x" "d" "c" "n2" "t").res = .error e ∧ e.isPrecondition = true) ↔
      ¬ FailPre dbTerm "x") :=
  ⟨by decide, failStep_precondition_iff dbTerm "x" "d" "c" "n2" "t" (by decide)⟩

/-- Claim C4 counterexample: on `dbTerm`, step `x` has status `failed`,
yet `completeStep(x, ctx)` commits successfully and afterwards `x` has
status `completed` and `completion_context` `ctx` — a subsequently
committed operation did change a terminal step's status and context, so
the claim as stated is false. -/
theorem completeStep_overwrites_failed_step :
    (findStep dbTerm "x").map Step.status = some Status.failed ∧
    (completeStep dbTerm "x" "ctx").res.isOk = true ∧
    (findStep (completeStep dbTerm "x" "ctx").db "x").map Step.status =
        some Status.completed ∧
    (findStep (completeStep dbTerm "x" "ctx").db "x").map Step.completion_context =
        some (some "ctx") := by
  decide

/-- Claim C4 (amended): a completed or failed step's status and
`completion_context` are never changed by a committed `createPlan`,
`createStep`, or `failStep`, nor by a `completeStep` aimed at a different
step id; but `completeStep` aimed at the terminal step itself overwrites
them unconditionally (status becomes `completed`, context the supplied
one) — the forward-only property holds for every operation except the
unguarded `completeStep`. -/
theorem terminal_step_immutable_except_completeStep (db : DB) (s : Step)
    (hwf : WF db) (hs : s ∈ db.steps)
    (hterm : s.status = Status.completed ∨ s.status = Status.failed) :
    (∀ pid n d now, ∀ t ∈ (createPlan db pid n d now).db.steps, t.id = s.id →
        t.status = s.status ∧ t.completion_context = s.completion_context) ∧
    (∀ sid pid d c ctx now, ∀ t ∈ (createStep db sid pid d c ctx now).db.steps,
        t.id = s.id →
        t.status = s.status ∧ t.completion_context = s.completion_context) ∧
    (∀ sid d c nid now, ∀ t ∈ (failStep db sid d c nid now).db.steps, t.id = s.id →
        t.status = s.status ∧ t.completion_context = s.completion_context) ∧
    (∀ sid ctx, sid ≠ s.id → ∀ t ∈ (completeStep db sid ctx).db.steps, t.id = s.id →
        t.status = s.status ∧ t.completion_context = s.completion_context) ∧
    (∀ ctx, ∀ t ∈ (completeStep db s.id ctx).db.steps, t.id = s.id →
        t.status = Status.completed ∧ t.completion_context = some ctx) := by
  obtain ⟨hndp, hnds, hnemp⟩ := hwf
  have hterm' : s.status ≠ Status.in_progress := by
    rcases hterm with h | h <;> rw [h] <;> intro hc <;> cases hc
  have hself : ∀ t ∈ db.steps, t.id = s.id →
      t.status = s.status ∧ t.completion_context = s.completion_context := by
    intro t ht htid
    have hts := key_inj_of_nodup Step.id db.steps hnds t s ht hs htid
    subst hts
    exact ⟨rfl, rfl⟩
  refine ⟨?_, ?_, ?_, ?_, ?_⟩
  · intro pid n d now t ht htid
    rw [createPlan_steps] at ht
    exact hself t ht htid
  · intro sid pid d c ctx now t ht htid
    by_cases hfresh : ∀ u ∈ db.steps, u.id ≠ sid
    · obtain ⟨hsteps, -, -⟩ := createStep_ok_spec db sid pid d c ctx now hfresh
      rw [hsteps] at ht
      rcases List.mem_append.mp ht with ht | ht
      · exact hself t ht htid
      · rcases List.mem_singleton.mp ht with rfl
        exact absurd htid.symm (hfresh s hs)
    · push_neg at hfresh
      obtain ⟨u, hu, huid⟩ := hfresh
      have hdup := insertStep_dup db sid pid d c ctx now ⟨u, hu, huid⟩
      have hdbeq : (createStep db sid pid d c ctx now).db = db := by
        unfold createStep
        rw [hdup]
      rw [hdbeq] at ht
      exact hself t ht htid
  · intro sid d c nid now t ht htid
    rcases failStep_steps_shape db sid d c nid now with
      hdbeq | ⟨st, hfind, hstat, hsteps, hfreshnid⟩
    · rw [hdbeq] at ht
      exact hself t ht htid
    · have hfind' : db.steps.find? (fun v => decide (v.id = sid)) = some st := hfind
      have hstmem : st ∈ db.steps := List.mem_of_find?_eq_some hfind'
      have hstid : st.id = sid := by
        have hp := List.find?_some hfind'
        simpa using hp
      have hsneq : s.id ≠ sid := by
        intro hcontra
        have hsts : st = s :=
          key_inj_of_nodup Step.id db.steps hnds st s hstmem hs (by rw [hstid, hcontra])
        subst hsts
        exact hterm' hstat
      rw [hsteps] at ht
      rcases List.mem_append.mp ht with ht | ht
      · rw [List.mem_map] at ht
        obtain ⟨v, hv, rfl⟩ := ht
        rw [List.mem_map] at hv
        obtain ⟨u, hu, rfl⟩ := hv
        rw [shf_id, mff_id] at htid
        have hus := key_inj_of_nodup Step.id db.steps hnds u s hu hs htid
        rw [hus, mff_other sid s hsneq]
        exact ⟨shf_status _ _ _, shf_ctx _ _ _⟩
      · rcases List.mem_singleton.mp ht with rfl
        have hsimg : shf st.plan_id st.step_order (mff sid s) ∈
            (db.steps.map (mff sid)).map (shf st.plan_id st.step_order) :=
          List.mem_map_of_mem _ (List.mem_map_of_mem _ hs)
        have hne2 := hfreshnid _ hsimg
        rw [shf_id, mff_id] at hne2
        exact absurd htid.symm hne2
  · intro sid ctx hsid t ht htid
    rcases completeStep_steps_cases db sid ctx with hdbeq | hsteps
    · rw [hdbeq] at ht
      exact hself t ht htid
    · rw [hsteps] at ht
      rw [List.mem_map] at ht
      obtain ⟨u, hu, rfl⟩ := ht
      rw [mcf_id] at htid
      have hus := key_inj_of_nodup Step.id db.steps hnds u s hu hs htid
      rw [hus, mcf_other sid ctx s (Ne.symm hsid)]
      exact ⟨rfl, rfl⟩
  · intro ctx t ht htid
    have hfs : findStep db s.id = some s := findStep_self db s hnds hs
    have hfs1 : findStep (markStepCompleted db s.id ctx) s.id = some (mcf s.id ctx s) := by
      rw [findStep_markStepCompleted, hfs]
      rfl
    have hgp : getPlanForStep (markStepCompleted db s.id ctx) s.id = some s.plan_id := by
      rw [getPlanForStep, hfs1, Option.map_some', mcf_plan_id]
    have hsteps : (completeStep db s.id ctx).db.steps = db.steps.map (mcf s.id ctx) := by
      unfold completeStep
      dsimp only
      rw [hgp]
      rfl
    rw [hsteps] at ht
    rw [List.mem_map] at ht
    obtain ⟨u, hu, rfl⟩ := ht
    rw [mcf_id] at htid
    rw [mcf_self s.id ctx u htid]
    exact ⟨rfl, rfl⟩

/-- Witness for C4's amended theorem: the failed step `x` of `dbTerm` is
untouched by a `completeStep` aimed at any other id. -/
theorem terminal_step_immutable_witness :
    WF dbTerm ∧ mkStep "x" 1 Status.failed none ∈ dbTerm.steps ∧
    (∀ sid ctx, sid ≠ (mkStep "x" 1 Status.failed none).id →
        ∀ t ∈ (completeStep dbTerm sid ctx).db.steps,
          t.id = (mkStep "x" 1 Status.failed none).id →
          t.status = (mkStep "x" 1 Status.failed none).status ∧
          t.completion_context = (mkStep "x" 1 Status.failed none).completion_context) :=
  ⟨by decide, by decide,
   (terminal_step_immutable_except_completeStep dbTerm (mkStep "x" 1 Status.failed none)
      (by decide) (by decide) (Or.inr rfl)).2.2.2.1⟩

/-- Claim C6 (confirmed): starting from a state in which the plan has no
steps, a sequence of n `createStep` calls for that plan (fresh, pairwise
distinct generated ids, no intervening failStep) leaves the plan's steps
with `step_order` values exactly `[1, 2, ..., n]`: each call computes
`COALESCE(MAX(step_order), 0) + 1`, so the orders are strictly
increasing, gap-free and start at 1. -/
theorem createStep_orders_gapless (db : DB) (planId : String) (reqs : List CreateReq)
    (hplan : ∀ s ∈ db.steps, s.plan_id ≠ planId)
    (hfresh : ∀ r ∈ reqs, ∀ s ∈ db.steps, s.id ≠ r.sid)
    (hnodup : (reqs.map CreateReq.sid).Nodup) :
    ((runCreateSteps db planId reqs).steps.filter
        (fun s => decide (s.plan_id = planId))).map Step.step_order = ordList reqs.length := by
  have h0 : (db.steps.filter (fun s => decide (s.plan_id = planId))).map Step.step_order =
      ordList 0 := by
    have : db.steps.filter (fun s => decide (s.plan_id = planId)) = [] := by
      rw [List.filter_eq_nil_iff]
      intro a ha
      simpa using hplan a ha
    rw [this]
    rfl
  have h := runCreateSteps_orders planId reqs db 0 h0 hfresh hnodup
  simpa using h

/-- Witness for C6: three steps created for plan `P` on the fresh store
receive orders 1, 2, 3. -/
theorem createStep_orders_gapless_witness :
    ((runCreateSteps emptyDB "P"
        [⟨"a1", "d1", "c1", "t1"⟩, ⟨"a2", "d2", "c2", "t2"⟩, ⟨"a3", "d3", "c3", "t3"⟩]).steps.filter
        (fun s => decide (s.plan_id = "P"))).map Step.step_order = ordList 3 :=
  createStep_orders_gapless emptyDB "P" _ (by decide) (by decide) (by decide)

/-- Claim C9 (confirmed): `getActiveStep` returns an in-progress step of
the plan with the lowest `step_order`, derived from status and order
only — the result does not depend on the `plans` table at all, hence not
on `active_step_id` — and returns absent exactly when the plan has no
in-progress step (in particular before any step exists); after a
successful `createStep` of the plan's first step it returns that step. -/
theorem getActiveStep_spec (db : DB) (planId : String) :
    (∀ st, getActiveStep db planId = some st →
        st ∈ db.steps ∧ st.plan_id = planId ∧ st.status = Status.in_progress ∧
        ∀ t ∈ db.steps, t.plan_id = planId → t.status = Status.in_progress →
          st.step_order ≤ t.step_order) ∧
    (getActiveStep db planId = none ↔
        ∀ t ∈ db.steps, t.plan_id = planId → t.status ≠ Status.in_progress) ∧
    (∀ plans2, getActiveStep ⟨plans2, db.steps⟩ planId = getActiveStep db planId) ∧
    (∀ sid d c ctx now st, (∀ s ∈ db.steps, s.plan_id ≠ planId) →
        (createStep db sid planId d c ctx now).res = .ok st →
        getActiveStep (createStep db sid planId d c ctx now).db planId = some st) := by
  refine ⟨?_, ?_, ?_, ?_⟩
  · intro st h
    unfold getActiveStep at h
    have hmem := firstByMinOrder_mem _ _ h
    rw [List.mem_filter] at hmem
    obtain ⟨hmem, hcond⟩ := hmem
    rw [decide_eq_true_eq] at hcond
    refine ⟨hmem, hcond.1, hcond.2, ?_⟩
    intro t ht h1 h2
    exact firstByMinOrder_le _ _ h t
      (List.mem_filter.mpr ⟨ht, by rw [decide_eq_true_eq]; exact ⟨h1, h2⟩⟩)
  · unfold getActiveStep
    rw [firstByMinOrder_eq_none_iff, List.filter_eq_nil_iff]
    constructor
    · intro h t ht h1 h2
      exact h t ht (by rw [decide_eq_true_eq]; exact ⟨h1, h2⟩)
    · intro h t ht hc
      rw [decide_eq_true_eq] at hc
      exact h t ht hc.1 hc.2
  · intro plans2
    rfl
  · intro sid d c ctx now st hplan hok
    have hfresh : ∀ s ∈ db.steps, s.id ≠ sid :=
      createStep_ok_fresh db sid planId d c ctx now st hok
    obtain ⟨hsteps, hres, _⟩ := createStep_ok_spec db sid planId d c ctx now hfresh
    rw [hres] at hok
    cases hok
    unfold getActiveStep
    rw [hsteps, List.filter_append]
    have h1 : db.steps.filter (fun s =>
        decide (s.plan_id = planId ∧ s.status = Status.in_progress)) = [] := by
      rw [List.filter_eq_nil_iff]
      intro a ha
      rw [decide_eq_true_eq]
      intro hc
      exact hplan a ha hc.1
    rw [h1, List.nil_append]
    have h2 : (List.filter (fun s => decide (s.plan_id = planId ∧ s.status = Status.in_progress))
        [newStepRec db sid planId d c ctx now]) = [newStepRec db sid planId d c ctx now] := by
      simp [newStepRec]
    rw [h2]
    rfl

/-- Witness for C9: on `dbTwo`, the active step of plan `P` is `x`
(order 1), and it satisfies the minimality property. -/
theorem getActiveStep_spec_witness :
    getActiveStep dbTwo "P" = some (mkStep "x" 1 Status.in_progress none) ∧
    (mkStep "x" 1 Status.in_progress none ∈ dbTwo.steps ∧
      (mkStep "x" 1 Status.in_progress none).plan_id = "P" ∧
      (mkStep "x" 1 Status.in_progress none).status = Status.in_progress ∧
      ∀ t ∈ dbTwo.steps, t.plan_id = "P" → t.status = Status.in_progress →
        (mkStep "x" 1 Status.in_progress none).step_order ≤ t.step_order) :=
  ⟨by decide, (getActiveStep_spec dbTwo "P").1 _ (by decide)⟩

/-- Claim C5 (refuted, code bug): the schema declares
`FOREIGN KEY(plan_id) REFERENCES plans(id)` but the code never enables
sqlite3 foreign-key enforcement, so `createStep` against a `planId` that
names no plan commits an orphan step: starting from a freshly initialized
store, `createStep` for the nonexistent plan `ghost` succeeds and leaves
a step whose `plan_id` matches no plan row. -/
theorem createStep_commits_orphan_step :
    (createStep emptyDB "s1" "ghost" "d" "c" none "t").res.isOk = true ∧
    (createStep emptyDB "s1" "ghost" "d" "c" none "t").db.steps.map Step.plan_id = ["ghost"] ∧
    (createStep emptyDB "s1" "ghost" "d" "c" none "t").db.plans = [] := by
  decide

end Planner
